import Mathlib

/-!
A shallow embedding of the SLAPIWrapper library (`src/index.js`) in Lean 4,
together with proofs about its mask-tree engine (`SLAPIMask`) and request
builder (`SLAPIRequest`).

The embedding follows the JavaScript source:
* a mask tree is a JS object used as a string-keyed mapping whose values are
  again such objects; JS objects keep insertion order and have unique keys,
  so a node is an association list with unique keys preserved by updates
  (`assignEntries` models `ref[k] = v`: replace in place if present,
  append otherwise; `removeEntries` models `delete ref[k]`);
* JS exceptions are `Except` errors; every `throw` in the source happens
  before any mutation of `this`, so an error result leaves the caller's tree
  exactly as it was (the success value is the whole new tree);
* `path.split('.')` is modelled character-exactly by `splitDots`
  (`''.split('.') = ['']`, separators produce empty segments), and
  `arr.join('.')` by `joinDots`;
* the tree is tree-shaped: the source never aliases one node object at two
  places in a mask, so functional update coincides with JS in-place update.
-/

namespace SLAPI

/-! ### Strings: the dot-splitting and joining used by mask paths -/

/-- Character-level model of the JavaScript `s.split('.')`:
`""` yields `[""]`, and every `'.'` separates (possibly empty) segments. -/
def splitDotsList : List Char → List String
  | [] => [""]
  | c :: cs =>
    if c = '.' then "" :: splitDotsList cs
    else
      match splitDotsList cs with
      | [] => [String.mk [c]]
      | t :: ts => String.mk (c :: t.data) :: ts

/-- The JavaScript `path.split('.')`. -/
def splitDots (s : String) : List String := splitDotsList s.data

/-- The JavaScript `arr.join('.')`. -/
def joinDots : List String → String
  | [] => ""
  | [s] => s
  | s :: rest => s ++ "." ++ joinDots rest

/-- The JavaScript `arr.join(',')` on a string array. -/
def joinCommas : List String → String
  | [] => ""
  | [s] => s
  | s :: rest => s ++ "," ++ joinCommas rest


/-! ### The mask tree (`SLAPIMask._maskObj`)

A JavaScript object used as a mapping from field names to child objects:
an insertion-ordered association list with unique keys. -/

inductive MaskObj : Type where
  | mk : List (String × MaskObj) → MaskObj

/-- The empty object `{}` / `Object.create(null)`. -/
def MaskObj.empty : MaskObj := .mk []

def MaskObj.entries : MaskObj → List (String × MaskObj)
  | .mk es => es

/-- `obj[k]` on a JS object: `none` models `undefined`. -/
def lookupEntries : List (String × MaskObj) → String → Option MaskObj
  | [], _ => none
  | (k', v) :: rest, k => if k' = k then some v else lookupEntries rest k

def MaskObj.lookup (m : MaskObj) (k : String) : Option MaskObj :=
  lookupEntries m.entries k

/-- `obj[k] = v` on a JS object: replace in place if the key is present
(keeping its position), append otherwise. -/
def assignEntries : List (String × MaskObj) → String → MaskObj → List (String × MaskObj)
  | [], k, v => [(k, v)]
  | (k', v') :: rest, k, v =>
    if k' = k then (k, v) :: rest else (k', v') :: assignEntries rest k v

def MaskObj.assign (m : MaskObj) (k : String) (v : MaskObj) : MaskObj :=
  .mk (assignEntries m.entries k v)

/-- `delete obj[k]` on a JS object (a no-op when the key is absent). -/
def removeEntries : List (String × MaskObj) → String → List (String × MaskObj)
  | [], _ => []
  | (k', v') :: rest, k =>
    if k' = k then rest else (k', v') :: removeEntries rest k

def MaskObj.remove (m : MaskObj) (k : String) : MaskObj :=
  .mk (removeEntries m.entries k)

def MaskObj.keys (m : MaskObj) : List String := m.entries.map (·.1)

/-! ### `_checkKeys`: validation of an object being assigned -/

/-- `SLAPIMask._checkKeys` (src/index.js:114-125) as a Boolean: for every key,
the key contains no `'.'`, and when its value is a nonempty plain object the
check recurses into it.  The JS method throws `SyntaxError` exactly when this
returns `false` (it inspects no state, so throwing mutates nothing). -/
def checkKeys : MaskObj → Bool
  | .mk [] => true
  | .mk ((k, v) :: rest) =>
    !(k.data.contains '.') &&
    (v.entries.isEmpty || checkKeys v) &&
    checkKeys (.mk rest)

/-- Modelled from the spec: a value "containing, at any nesting depth, a key
with a `.` character". -/
def hasDotDeep : MaskObj → Bool
  | .mk [] => false
  | .mk ((k, v) :: rest) =>
    k.data.contains '.' || hasDotDeep v || hasDotDeep (.mk rest)

/-- Modelled from the spec: "no key anywhere in the mask tree contains a `.`
character". -/
def noDotKeys : MaskObj → Bool
  | .mk [] => true
  | .mk ((k, v) :: rest) =>
    !(k.data.contains '.') && noDotKeys v && noDotKeys (.mk rest)

/-- Modelled from the spec ("valid nested key structures"): a tree none of
whose keys is the empty string. -/
def noEmptyKeys : MaskObj → Bool
  | .mk [] => true
  | .mk ((k, v) :: rest) =>
    !(k = "") && noEmptyKeys v && noEmptyKeys (.mk rest)

/-! ### `_objToStr` / `toString`: serialization -/

/-- The `recurse` closure of `SLAPIMask._objToStr` (src/index.js:154-170):
depth-first walk accumulating, for each entry, either the recursive leaves of
a nonempty child or the dot-joined prefix itself; `cur = ""` models the
initial `undefined` (falsy) `current`. -/
def leafList : MaskObj → String → List String
  | .mk [], _ => []
  | .mk ((k, v) :: rest), cur =>
    let newKey := if cur = "" then k else cur ++ "." ++ k
    (match v with
     | .mk [] => [newKey]
     | .mk (e :: es) => leafList (.mk (e :: es)) newKey) ++
    leafList (.mk rest) cur

/-- `SLAPIMask._objToStr`: the comma-joined leaf list. -/
def objToStr (m : MaskObj) : String := joinCommas (leafList m "")

/-- `SLAPIMask.toString` (src/index.js:172), also the `mask` / `maskString`
accessors. -/
def MaskObj.toStr (m : MaskObj) : String := "mask[" ++ objToStr m ++ "]"

/-- Modelled from the spec (§4.1 Serialization): the root-to-leaf key paths of
exactly those nodes whose mapping is empty, in depth-first order. -/
def leafPathsSpec : MaskObj → List (List String)
  | .mk [] => []
  | .mk ((k, v) :: rest) =>
    (match v with
     | .mk [] => [[k]]
     | .mk (e :: es) => (leafPathsSpec (.mk (e :: es))).map (k :: ·)) ++
    leafPathsSpec (.mk rest)

/-! ### `_getRef`: path resolution -/

inductive MaskError : Type where
  /-- `SyntaxError('Object keys cannot include periods')` -/
  | syntaxViolation : MaskError
  /-- `ReferenceError` carrying the missing segment, the path handed to
  `_getRef`, and the tree's current serialized form. -/
  | pathNotFound (key path mask : String) : MaskError
  /-- `Error('Invalid property/properties name/s')` from `push`. -/
  | invalidArgument : MaskError
deriving DecidableEq

/-- The segment walk of `SLAPIMask._getRef` (src/index.js:132-147): `root` is
`this` (used for the diagnostic serialization), `fullPath` the path argument;
an absent (`undefined`, hence falsy) segment value raises `ReferenceError`. -/
def getRefSegs (root : MaskObj) (fullPath : String) :
    MaskObj → List String → Except MaskError MaskObj
  | m, [] => .ok m
  | m, k :: ks =>
    match m.lookup k with
    | none => .error (.pathNotFound k fullPath root.toStr)
    | some child => getRefSegs root fullPath child ks

/-- `SLAPIMask._getRef(path)`. -/
def getRef (m : MaskObj) (path : String) : Except MaskError MaskObj :=
  if path = "" then .ok m
  else getRefSegs m path m (splitDots path)

/-- Does a mask operation result signal the PathNotFound condition? -/
def isPathNotFound : Except MaskError MaskObj → Bool
  | .error (.pathNotFound _ _ _) => true
  | _ => false

/-- Iterated lookup along segments, used to state "some segment is absent". -/
def lookupPath : MaskObj → List String → Option MaskObj
  | m, [] => some m
  | m, k :: ks =>
    match m.lookup k with
    | none => none
    | some child => lookupPath child ks

/-! ### `set`, `unset`, `push` -/

/-- Functional image of `ref[target] = val` where `ref = _getRef(segs)`:
rebuild the tree along `segs` (each segment is known present when this is
reached) and assign `target` in the final node. -/
def setAtSegs (m : MaskObj) : List String → String → MaskObj → MaskObj
  | [], target, val => m.assign target val
  | k :: ks, target, val =>
    match m.lookup k with
    | none => m
    | some child => m.assign k (setAtSegs child ks target val)

/-- Functional image of `delete ref[target]` where `ref = _getRef(segs)`. -/
def removeAtSegs (m : MaskObj) : List String → String → MaskObj
  | [], target => m.remove target
  | k :: ks, target =>
    match m.lookup k with
    | none => m
    | some child => m.assign k (removeAtSegs child ks target)

/-- `SLAPIMask.set(val, path)` (src/index.js:57-71).  `_checkKeys` runs first
and its `SyntaxError` precedes any mutation; `path=""` replaces the root;
otherwise the path is split, the final segment popped off, and the parent
resolved (`_getRef` raising `ReferenceError` before any mutation) before the
single assignment.  An `.error` result therefore leaves the tree unchanged. -/
def MaskObj.set (m val : MaskObj) (path : String) : Except MaskError MaskObj :=
  if checkKeys val = false then .error .syntaxViolation
  else if path = "" then .ok val
  else
    let parts := splitDots path
    let target := parts.getLastD ""
    let shortened := joinDots parts.dropLast
    if shortened = "" then .ok (m.assign target val)
    else
      match getRefSegs m shortened m (splitDots shortened) with
      | .error e => .error e
      | .ok _ => .ok (setAtSegs m (splitDots shortened) target val)

/-- `SLAPIMask.unset(path)` (src/index.js:25-37). -/
def MaskObj.unset (m : MaskObj) (path : String) : Except MaskError MaskObj :=
  if path = "" then .ok (.mk [])
  else
    let parts := splitDots path
    let target := parts.getLastD ""
    let shortened := joinDots parts.dropLast
    if shortened = "" then .ok (m.remove target)
    else
      match getRefSegs m shortened m (splitDots shortened) with
      | .error e => .error e
      | .ok _ => .ok (removeAtSegs m (splitDots shortened) target)

/-- The property argument of `push`: a JS string or array of strings (other
types always throw in the source and carry no further behaviour). -/
inductive PushArg : Type where
  | str : String → PushArg
  | arr : List String → PushArg

/-- JS truthiness of the `!prop` guard in `push`: the empty string is falsy;
every array (including `[]`) is truthy. -/
def pushFalsy : PushArg → Bool
  | .str s => s = ""
  | .arr _ => false

/-- The `tempObj` built by `push`: one leaf per property name (duplicates
overwrite, as JS assignment does). -/
def buildTemp : PushArg → MaskObj
  | .str s => .mk [(s, .mk [])]
  | .arr l => l.foldl (fun acc s => acc.assign s (.mk [])) (.mk [])

/-- `SLAPIMask.push(prop, path)` (src/index.js:88-107): guard, build
`tempObj`, then `this.set(tempObj, path)`. -/
def MaskObj.push (m : MaskObj) (prop : PushArg) (path : String) :
    Except MaskError MaskObj :=
  if pushFalsy prop then .error .invalidArgument
  else m.set (buildTemp prop) path

/-! ### Operation sequences (for the tree invariant) -/

inductive MaskOp : Type where
  | setO : MaskObj → String → MaskOp
  | unsetO : String → MaskOp
  | pushO : PushArg → String → MaskOp

def applyOp (m : MaskObj) : MaskOp → Except MaskError MaskObj
  | .setO v p => m.set v p
  | .unsetO p => m.unset p
  | .pushO pr p => m.push pr p

/-- Run a sequence of operations; a failing operation (a thrown JS error)
leaves the tree as it was. -/
def runOps (m : MaskObj) : List MaskOp → MaskObj
  | [] => m
  | op :: ops =>
    match applyOp m op with
    | .ok m' => runOps m' ops
    | .error _ => runOps m ops

/-! ### JSON values (filters, response bodies)

`options.filter` and parsed response bodies are arbitrary JSON values;
`JSON.stringify` is modelled by `jsonStringify` (numbers as integers — no
claim depends on float formatting). -/

inductive JsonVal : Type where
  | null : JsonVal
  | bool : Bool → JsonVal
  | num : Int → JsonVal
  | str : String → JsonVal
  | arr : List JsonVal → JsonVal
  | obj : List (String × JsonVal) → JsonVal

/-- `JSON.stringify` string escaping (quotes and backslashes; no claim
serializes control characters). -/
def jsonEscapeChar (c : Char) : List Char :=
  if c = '"' then ['\\', '"']
  else if c = '\\' then ['\\', '\\']
  else [c]

def jsonEscape (s : String) : String := ⟨s.data.flatMap jsonEscapeChar⟩

mutual

def jsonStringify : JsonVal → String
  | .null => "null"
  | .bool b => if b then "true" else "false"
  | .num n => toString n
  | .str s => "\"" ++ jsonEscape s ++ "\""
  | .arr xs => "[" ++ jsonStringifyItems xs ++ "]"
  | .obj fs => "\x7b" ++ jsonStringifyFields fs ++ "\x7d"

def jsonStringifyItems : List JsonVal → String
  | [] => ""
  | [x] => jsonStringify x
  | x :: y :: rest => jsonStringify x ++ "," ++ jsonStringifyItems (y :: rest)

def jsonStringifyFields : List (String × JsonVal) → String
  | [] => ""
  | [(k, v)] => "\"" ++ jsonEscape k ++ "\":" ++ jsonStringify v
  | (k, v) :: f :: rest =>
    "\"" ++ jsonEscape k ++ "\":" ++ jsonStringify v ++ ","
      ++ jsonStringifyFields (f :: rest)

end

/-- JS truthiness of a JSON value. -/
def jsonTruthy : JsonVal → Bool
  | .null => false
  | .bool b => b
  | .num n => !(n = 0)
  | .str s => !(s = "")
  | .arr _ => true
  | .obj _ => true

def jsonFieldEntries : List (String × JsonVal) → String → Option JsonVal
  | [], _ => none
  | (k', v) :: rest, k => if k' = k then some v else jsonFieldEntries rest k

/-- `res.k` on a parsed JSON value: `none` models `undefined`. -/
def jsonField : JsonVal → String → Option JsonVal
  | .obj fs, k => jsonFieldEntries fs k
  | _, _ => none

/-- JS truthiness of a possibly-`undefined` value. -/
def optTruthy : Option JsonVal → Bool
  | none => false
  | some v => jsonTruthy v

mutual

/-- Template-literal interpolation of a JS value (`` `${v}` ``). -/
def jsDisplay : JsonVal → String
  | .null => "null"
  | .bool b => if b then "true" else "false"
  | .num n => toString n
  | .str s => s
  | .arr xs => jsDisplayItems xs
  | .obj _ => "[object Object]"

def jsDisplayItems : List JsonVal → String
  | [] => ""
  | [x] => jsDisplay x
  | x :: y :: rest => jsDisplay x ++ "," ++ jsDisplayItems (y :: rest)

end

/-- `` `${v}` `` where `v` may be `undefined`. -/
def optDisplay : Option JsonVal → String
  | none => "undefined"
  | some v => jsDisplay v

/-! ### `btoa` (Basic-Authentication header) -/

def base64Table : List Char :=
  "ABCDEFGHIJKLMNOPQRSTUVWXYZabcdefghijklmnopqrstuvwxyz0123456789+/".data

def b64At (n : Nat) : Char := base64Table.getD n 'A'

def base64Chunks : List Nat → List Char
  | [] => []
  | [b1] => [b64At (b1 / 4), b64At (b1 % 4 * 16), '=', '=']
  | [b1, b2] => [b64At (b1 / 4), b64At (b1 % 4 * 16 + b2 / 16), b64At (b2 % 16 * 4), '=']
  | b1 :: b2 :: b3 :: rest =>
    b64At (b1 / 4) :: b64At (b1 % 4 * 16 + b2 / 16) ::
    b64At (b2 % 16 * 4 + b3 / 64) :: b64At (b3 % 64) :: base64Chunks rest

/-- `btoa`: base64 of the code units (the source only encodes ASCII
credential strings; larger code points would throw in JS). -/
def btoa (s : String) : String := ⟨base64Chunks (s.data.map (fun c => c.toNat % 256))⟩

/-! ### `URLSearchParams` serialization -/

def hexDigitsU : List Char := "0123456789ABCDEF".data

def percentByte (b : Nat) : List Char :=
  ['%', hexDigitsU.getD (b / 16 % 16) '0', hexDigitsU.getD (b % 16) '0']

/-- UTF-8 bytes of one character. -/
def utf8Bytes (c : Char) : List Nat :=
  let n := c.toNat
  if n < 128 then [n]
  else if n < 2048 then [192 + n / 64, 128 + n % 64]
  else if n < 65536 then [224 + n / 4096, 128 + n / 64 % 64, 128 + n % 64]
  else [240 + n / 262144, 128 + n / 4096 % 64, 128 + n / 64 % 64, 128 + n % 64]

/-- Bytes the `application/x-www-form-urlencoded` serializer leaves bare:
`*`, `-`, `.`, `_`, digits and letters. -/
def formSafeByte (b : Nat) : Bool :=
  b = 42 || b = 45 || b = 46 || b = 95 ||
  (48 ≤ b && b ≤ 57) || (65 ≤ b && b ≤ 90) || (97 ≤ b && b ≤ 122)

def formEncodeByte (b : Nat) : List Char :=
  if b = 32 then ['+']
  else if formSafeByte b then [Char.ofNat b]
  else percentByte b

def formEncode (s : String) : String :=
  ⟨(s.data.flatMap utf8Bytes).flatMap formEncodeByte⟩

def joinAmps : List String → String
  | [] => ""
  | [s] => s
  | s :: rest => s ++ "&" ++ joinAmps rest

/-- `URLSearchParams.toString()` on parameters set in insertion order. -/
def serializeParams (ps : List (String × String)) : String :=
  joinAmps (ps.map fun p => formEncode p.1 ++ "=" ++ formEncode p.2)

/-! ### The request builder (`SLAPIRequest`) -/

/-- `Headers.set`: replace an existing header value in place, else append
(the source only ever sets `Authorization`, so header-name case folding is
irrelevant). -/
def headerSet : List (String × String) → String → String → List (String × String)
  | [], k, v => [(k, v)]
  | (k', v') :: rest, k, v =>
    if k' = k then (k, v) :: rest else (k', v') :: headerSet rest k v

/-- A parsed HTTP response: the total-items header and the JSON body
(`res.json()`); non-JSON bodies are transport failures outside every claim. -/
structure HttpResponse where
  totalItemsHeader : Option String
  body : JsonVal

/-- `this.results`: last response and start/end timestamps (`stop` models the
source's `end`, a Lean keyword). -/
structure ResultState where
  res : Option HttpResponse
  start : Option Nat
  stop : Option Nat

/-- `this.options`. -/
structure RequestOptions where
  offset : Nat
  limit : Nat
  filter : JsonVal
  headers : List (String × String)
  body : List (String × String)
  method : String

/-- `this.config`.  A `String` field models the string-or-null slots
(`""` and `null` are equally falsy to every check in the source); the
credential slots hold arbitrary JS values (`none` = `undefined`) because
`employeeLogin` stores whatever the exchange returns in them. -/
structure RequestConfig where
  endpoint : String
  service : String
  func : String
  username : Option JsonVal
  password : Option JsonVal

structure SLAPIRequest where
  results : ResultState
  options : RequestOptions
  mask : MaskObj
  config : RequestConfig

/-- The constructor (src/index.js:215-231) with its defaults already split
out by the caller; field initializers as in the class body. -/
def mkRequest (service func : String) (mask : MaskObj) (filter : JsonVal)
    (username password : Option JsonVal) : SLAPIRequest :=
  { results := { res := none, start := none, stop := none },
    options := { offset := 0, limit := 25, filter := filter, headers := [],
                 body := [], method := "get" },
    mask := mask,
    config := { endpoint := "https://api.softlayer.com/rest/v3.1/",
                service := service, func := func,
                username := username, password := password } }

inductive BuildError : Type where
  /-- `Error('Invalid service')` -/
  | invalidService : BuildError
  /-- `Error('Invalid function')` -/
  | invalidFunction : BuildError
deriving DecidableEq

/-- JS truthiness of a string-or-null config slot. -/
def strTruthy (s : String) : Bool := !(s = "")

/-- JS falsiness of a string (only `""` is falsy). -/
def strFalsy (s : String) : Bool := s = ""

def urlRaw (b : SLAPIRequest) : String :=
  b.config.endpoint ++ b.config.service ++ "/" ++ b.config.func

/-- The `url` getter (src/index.js:236-240). -/
def url (b : SLAPIRequest) : Except BuildError String :=
  if strTruthy b.config.service = false then .error .invalidService
  else if strTruthy b.config.func = false then .error .invalidFunction
  else .ok (urlRaw b)

/-- The query parameters set by the `urlQuery` getter, in insertion order:
`objectMask` unless the mask serializes to `mask[]`, `objectFilter` unless
the filter serializes to `{}`, and always `resultLimit=<offset>,<limit>`. -/
def urlQueryParams (b : SLAPIRequest) : List (String × String) :=
  (if b.mask.toStr ≠ "mask[]" then [("objectMask", b.mask.toStr)] else []) ++
  (if jsonStringify b.options.filter ≠ "\x7b\x7d" then
    [("objectFilter", jsonStringify b.options.filter)] else []) ++
  [("resultLimit", toString b.options.offset ++ "," ++ toString b.options.limit)]

/-- The `urlQuery` getter (src/index.js:245-258). -/
def urlQuery (b : SLAPIRequest) : Except BuildError String :=
  if strTruthy b.config.service = false then .error .invalidService
  else if strTruthy b.config.func = false then .error .invalidFunction
  else .ok (urlRaw b ++ "?" ++ serializeParams (urlQueryParams b))

/-- `page(n)` (src/index.js:352-355): derives the offset. -/
def page (b : SLAPIRequest) (n : Nat) : SLAPIRequest :=
  { b with options := { b.options with offset := (n - 1) * b.options.limit } }

/-- The `username` setter. -/
def usernameSet (b : SLAPIRequest) (v : Option JsonVal) : SLAPIRequest :=
  { b with config := { b.config with username := v } }

/-- The `password` setter. -/
def passwordSet (b : SLAPIRequest) (v : Option JsonVal) : SLAPIRequest :=
  { b with config := { b.config with password := v } }

/-- `method(m)` (chainable). -/
def methodSet (b : SLAPIRequest) (m : String) : SLAPIRequest :=
  { b with options := { b.options with method := m } }

/-- `body(fd)` (chainable). -/
def bodySet (b : SLAPIRequest) (fd : List (String × String)) : SLAPIRequest :=
  { b with options := { b.options with body := fd } }

/-- ASCII case folding, modelling `toLocaleLowerCase` on the method names
the source compares (`'post'`). -/
def lowerChar (c : Char) : Char :=
  if 'A' ≤ c && c ≤ 'Z' then Char.ofNat (c.toNat + 32) else c

def lowerStr (s : String) : String := ⟨s.data.map lowerChar⟩

/-! ### `exec` and the outside world

HTTP and the clock are an explicit oracle: `responses n` is the response to
the `n`-th fetch ever issued, `calls` logs the requests, and `now` advances
by one per `Date.now()` and by the pause length per `timeout()`. -/

structure FetchCall where
  url : String
  headers : List (String × String)
  method : String
  body : Option (List (String × String))

structure World where
  now : Nat
  responses : Nat → HttpResponse
  calls : List FetchCall

/-- The single fetch request a credentialed `exec` issues — its derived
shape, given the serialized query url `uq` (bare url and form body for a
`post` method, query url and no body otherwise). -/
def execCallOf (b : SLAPIRequest) (uq : String) : FetchCall :=
  { url := if lowerStr (if b.options.method = "" then "get" else b.options.method)
        = "post" then urlRaw b else uq,
    headers := headerSet b.options.headers "Authorization"
      ("Basic " ++ btoa (optDisplay b.config.username ++ ":"
        ++ optDisplay b.config.password)),
    method := if b.options.method = "" then "get" else b.options.method,
    body := if lowerStr (if b.options.method = "" then "get" else b.options.method)
        = "post" then some b.options.body else none }

inductive ExecOutcome : Type where
  /-- a thrown error (`urlQuery` getter throwing inside `exec`) -/
  | thrown : BuildError → ExecOutcome
  /-- the **returned** `new Error('Invalid API token')` value -/
  | errValue : String → ExecOutcome
  /-- the parsed JSON body -/
  | json : JsonVal → ExecOutcome

/-- `exec()` (src/index.js:380-413).  Missing credentials return an error
value before any state is touched; otherwise: record start, compute
`urlQuery` (its throw propagates), set the Basic-Authorization header, fetch
the bare `url` with the body for `post` (case-insensitive) or `urlQuery`
with no body otherwise, record the response and end timestamp, and return
the parsed body.  (`this.url` in the post branch re-checks service/function,
which `urlQuery` just proved truthy, so it equals `urlRaw`.) -/
def exec (b : SLAPIRequest) (w : World) : SLAPIRequest × World × ExecOutcome :=
  if !optTruthy b.config.username || !optTruthy b.config.password then
    (b, w, .errValue "Invalid API token")
  else
    let b1 : SLAPIRequest :=
      { b with results := { b.results with start := some w.now } }
    let w1 : World := { w with now := w.now + 1 }
    match urlQuery b1 with
    | .error e => (b1, w1, .thrown e)
    | .ok uq =>
      let authString :=
        optDisplay b1.config.username ++ ":" ++ optDisplay b1.config.password
      let b2 : SLAPIRequest :=
        { b1 with options := { b1.options with
            headers := headerSet b1.options.headers "Authorization"
              ("Basic " ++ btoa authString) } }
      let method := if b2.options.method = "" then "get" else b2.options.method
      let isPost := lowerStr method = "post"
      let call : FetchCall :=
        { url := if isPost then urlRaw b2 else uq,
          headers := b2.options.headers,
          method := method,
          body := if isPost then some b2.options.body else none }
      let res := w1.responses w1.calls.length
      let w2 : World := { w1 with calls := w1.calls ++ [call] }
      let b3 : SLAPIRequest :=
        { b2 with results := { res := some res, start := b2.results.start,
                               stop := some w2.now } }
      let w3 : World := { w2 with now := w2.now + 1 }
      (b3, w3, .json res.body)

/-! ### `getNumOfPages` -/

/-- An element of the page-results accumulator: the parsed JSON of a page,
or the returned `Error` object when `exec` had no credentials. -/
inductive PageItem : Type where
  | json : JsonVal → PageItem
  | errObj : String → PageItem

/-- `[].concat.apply([], resArr)`: one level of flattening — JSON arrays are
spliced, everything else is kept whole. -/
def flatten1 (l : List PageItem) : List PageItem :=
  l.flatMap fun x =>
    match x with
    | .json (.arr xs) => xs.map PageItem.json
    | other => [other]

/-- Observable events of the pagination loop, for the ordering claim. -/
inductive PageEvent : Type where
  | setPage : Nat → PageEvent
  | execCall : PageEvent
  | pause : Nat → PageEvent
deriving DecidableEq

/-- The loop body of `getNumOfPages` (src/index.js:419-432): for `i` in
`1..pages`, set the page, `exec`, append the result, pause 300ms
(`timeout()`); a thrown `exec` error aborts the loop; the flattened
accumulator is returned (the source also stores it on `this.resArr`, a
dynamic property no other code reads). -/
def getNumOfPagesLoop (b : SLAPIRequest) (w : World) (i pages : Nat)
    (acc : List PageItem) (evs : List PageEvent) :
    SLAPIRequest × World × List PageEvent × Except BuildError (List PageItem) :=
  if _h : pages < i then (b, w, evs, .ok (flatten1 acc))
  else
    match exec (page b i) w with
    | (b2, w2, .thrown e) => (b2, w2, evs ++ [.setPage i, .execCall], .error e)
    | (b2, w2, .errValue msg) =>
      getNumOfPagesLoop b2 { w2 with now := w2.now + 300 } (i + 1) pages
        (acc ++ [.errObj msg]) (evs ++ [.setPage i, .execCall, .pause 300])
    | (b2, w2, .json v) =>
      getNumOfPagesLoop b2 { w2 with now := w2.now + 300 } (i + 1) pages
        (acc ++ [.json v]) (evs ++ [.setPage i, .execCall, .pause 300])
termination_by pages + 1 - i
decreasing_by
  all_goals omega

def getNumOfPages (b : SLAPIRequest) (w : World) (pages : Nat) :
    SLAPIRequest × World × List PageEvent × Except BuildError (List PageItem) :=
  getNumOfPagesLoop b w 1 pages [] []

/-! ### `employeeLogin` -/

inductive LoginError : Type where
  /-- `Error('Missing login credentials')` -/
  | missingCredentials : LoginError
  /-- `Error(res.error)`: the remote error surfaced -/
  | remote : JsonVal → LoginError
  /-- a thrown configuration error from the inner `exec` -/
  | thrownBuild : BuildError → LoginError

/-- `employeeLogin(username, password, token)` (src/index.js:441-465):
guard the three arguments (absent or empty is falsy), build a fresh builder
for the fixed token-exchange service, post `remoteToken=<token>`, and
either surface a truthy `error` field or adopt `userId`/`hash` as this
instance's credentials.  An `.error` result leaves `b` unchanged — every
`throw` in the source happens before the credential assignments.  (The
`errValue` arm is unreachable here because the guard just proved both
credentials truthy; JS would read `undefined` fields off the Error object.) -/
def employeeLogin (b : SLAPIRequest) (username password token : Option String)
    (w : World) : World × Except LoginError SLAPIRequest :=
  if strFalsy (username.getD "") || strFalsy (password.getD "")
      || strFalsy (token.getD "") then
    (w, .error .missingCredentials)
  else
    let apiCall := mkRequest "SoftLayer_User_Employee" "getEncryptedSessionToken"
      MaskObj.empty (.obj []) ((username.getD "") |> JsonVal.str |> some)
      ((password.getD "") |> JsonVal.str |> some)
    let apiCall2 := bodySet (methodSet apiCall "post") [("remoteToken", token.getD "")]
    match exec apiCall2 w with
    | (_, w2, .thrown e) => (w2, .error (.thrownBuild e))
    | (_, w2, .errValue _) =>
      (w2, .ok (passwordSet (usernameSet b none) none))
    | (_, w2, .json res) =>
      if optTruthy (jsonField res "error") then
        (w2, .error (.remote ((jsonField res "error").getD .null)))
      else
        (w2, .ok (passwordSet (usernameSet b (jsonField res "userId"))
          (jsonField res "hash")))

/-! ## Theorems -/

/-! ### String lemmas -/

theorem splitDotsList_ne_nil (cs : List Char) : splitDotsList cs ≠ [] := by
  induction cs with
  | nil => simp [splitDotsList]
  | cons c cs ih =>
    simp only [splitDotsList]
    split
    · simp
    · cases h : splitDotsList cs with
      | nil => simp
      | cons t ts => simp

theorem splitDots_ne_nil (s : String) : splitDots s ≠ [] := splitDotsList_ne_nil s.data

/-- Every segment produced by `split('.')` is free of `'.'`. -/
theorem splitDotsList_noDot (cs : List Char) :
    ∀ t ∈ splitDotsList cs, '.' ∉ t.data := by
  induction cs with
  | nil => intro t ht; simp [splitDotsList] at ht; simp [ht]
  | cons c cs ih =>
    intro t ht
    simp only [splitDotsList] at ht
    split at ht
    · rcases List.mem_cons.1 ht with h | h
      · simp [h]
      · exact ih t h
    · rename_i hc
      cases h : splitDotsList cs with
      | nil => exact absurd h (splitDotsList_ne_nil cs)
      | cons t0 ts =>
        rw [h] at ht
        rcases List.mem_cons.1 ht with h1 | h1
        · subst h1
          intro hmem
          rcases List.mem_cons.1 hmem with h2 | h2
          · exact hc h2.symm
          · exact ih t0 (h ▸ List.mem_cons_self t0 ts) h2
        · exact ih t (h ▸ List.mem_cons_of_mem t0 h1)

theorem splitDots_noDot (s : String) : ∀ t ∈ splitDots s, '.' ∉ t.data :=
  splitDotsList_noDot s.data

/-- A dot-free string splits into the singleton of itself. -/
theorem splitDotsList_of_noDot (cs : List Char) (h : '.' ∉ cs) :
    splitDotsList cs = [String.mk cs] := by
  induction cs with
  | nil => simp [splitDotsList]
  | cons c cs ih =>
    simp only [splitDotsList]
    have hc : ¬ c = '.' := fun hh => h (hh ▸ List.mem_cons_self c cs)
    rw [if_neg hc, ih (fun hm => h (List.mem_cons_of_mem c hm))]

theorem splitDots_of_noDot (s : String) (h : '.' ∉ s.data) : splitDots s = [s] := by
  unfold splitDots
  rw [splitDotsList_of_noDot s.data h]

theorem splitDotsList_append_dot (cs ds : List Char) (h : '.' ∉ cs) :
    splitDotsList (cs ++ '.' :: ds) = String.mk cs :: splitDotsList ds := by
  induction cs with
  | nil => simp [splitDotsList]
  | cons c cs ih =>
    have hc : ¬ c = '.' := fun hh => h (hh ▸ List.mem_cons_self c cs)
    have ih' := ih (fun hm => h (List.mem_cons_of_mem c hm))
    show splitDotsList (c :: (cs ++ '.' :: ds)) = _
    simp only [splitDotsList, if_neg hc, ih']

/-- `join('.')` then `split('.')` restores a nonempty list of dot-free segments. -/
theorem splitDots_joinDots (l : List String) (hne : l ≠ [])
    (h : ∀ t ∈ l, '.' ∉ t.data) : splitDots (joinDots l) = l := by
  induction l with
  | nil => exact absurd rfl hne
  | cons x xs ih =>
    cases xs with
    | nil =>
      simp only [joinDots]
      exact splitDots_of_noDot x (h x (List.mem_cons_self x []))
    | cons y ys =>
      have hjoin : joinDots (x :: y :: ys) = x ++ "." ++ joinDots (y :: ys) := rfl
      unfold splitDots
      rw [hjoin]
      have hdata : (x ++ "." ++ joinDots (y :: ys)).data
          = x.data ++ '.' :: (joinDots (y :: ys)).data := by
        rw [String.data_append, String.data_append, List.append_assoc]
        have hdot : ".".data = ['.'] := rfl
        rw [hdot, List.singleton_append]
      rw [hdata, splitDotsList_append_dot x.data _ (h x (List.mem_cons_self x _))]
      have := ih (by simp) (fun t ht => h t (List.mem_cons_of_mem x ht))
      unfold splitDots at this
      rw [this]

theorem getLastD_mem (l : List String) (d : String) (h : l ≠ []) : l.getLastD d ∈ l := by
  cases l with
  | nil => exact absurd rfl h
  | cons x xs =>
    rw [List.getLastD_eq_getLast?, List.getLast?_eq_getLast _ h, Option.getD_some]
    exact List.getLast_mem h

/-- A list of nonempty dot-free strings joins to a nonempty string. -/
theorem joinDots_ne_empty (l : List String) (hne : l ≠ []) (h : ∀ t ∈ l, t ≠ "") :
    joinDots l ≠ "" := by
  cases l with
  | nil => exact absurd rfl hne
  | cons x xs =>
    cases xs with
    | nil => exact h x (List.mem_cons_self x [])
    | cons y ys =>
      have hjoin : joinDots (x :: y :: ys) = x ++ "." ++ joinDots (y :: ys) := rfl
      rw [hjoin]
      intro hEq
      have hd := congrArg String.data hEq
      rw [String.data_append, String.data_append] at hd
      have hdot : ".".data = ['.'] := rfl
      have hnil : "".data = [] := rfl
      rw [hdot, hnil] at hd
      simp at hd

/-! ### Tree induction -/

/-- Structural induction for the nested tree: a property holding at the empty
object and preserved by consing one entry holds everywhere. -/
theorem MaskObj.induct (P : MaskObj → Prop)
    (base : P (.mk []))
    (step : ∀ k v rest, P v → P (.mk rest) → P (.mk ((k, v) :: rest))) :
    ∀ m, P m := by
  have H : ∀ n m, sizeOf m ≤ n → P m := by
    intro n
    induction n with
    | zero =>
      intro m h
      cases m with
      | mk es =>
        cases es with
        | nil => exact base
        | cons e rest => simp at h
    | succ n ih =>
      intro m h
      cases m with
      | mk es =>
        cases es with
        | nil => exact base
        | cons e rest =>
          obtain ⟨k, v⟩ := e
          simp only [MaskObj.mk.sizeOf_spec, List.cons.sizeOf_spec,
            Prod.mk.sizeOf_spec] at h
          exact step k v rest
            (ih v (by omega))
            (ih (.mk rest) (by simp only [MaskObj.mk.sizeOf_spec]; omega))
  exact fun m => H (sizeOf m) m le_rfl

/-! ### Validation lemmas -/

theorem noDotKeys_of_empty_entries (v : MaskObj) (h : v.entries.isEmpty = true) :
    noDotKeys v = true := by
  cases v with
  | mk es =>
    cases es with
    | nil => simp [noDotKeys]
    | cons e rest => simp [MaskObj.entries] at h

/-- `_checkKeys` accepts exactly the trees with no dotted key anywhere:
the "recurse only into nonempty children" guard loses nothing because an
empty child has no keys. -/
theorem checkKeys_eq_noDotKeys : ∀ m, checkKeys m = noDotKeys m := by
  apply MaskObj.induct
  · simp [checkKeys, noDotKeys]
  · intro k v rest ihv ihr
    simp only [checkKeys, noDotKeys, ihv, ihr]
    cases hv : v.entries.isEmpty
    · simp
    · rw [noDotKeys_of_empty_entries v hv]
      simp

theorem noDotKeys_eq_not_hasDotDeep : ∀ m, noDotKeys m = !hasDotDeep m := by
  apply MaskObj.induct
  · simp [noDotKeys, hasDotDeep]
  · intro k v rest ihv ihr
    simp only [noDotKeys, hasDotDeep, ihv, ihr, Bool.not_or]

theorem checkKeys_false_of_hasDotDeep (v : MaskObj) (h : hasDotDeep v = true) :
    checkKeys v = false := by
  rw [checkKeys_eq_noDotKeys, noDotKeys_eq_not_hasDotDeep, h]
  rfl

theorem noDotKeys_lookupEntries : ∀ (es : List (String × MaskObj)) k v,
    noDotKeys (.mk es) = true → lookupEntries es k = some v → noDotKeys v = true := by
  intro es
  induction es with
  | nil => intro k v _ h; simp [lookupEntries] at h
  | cons e rest ih =>
    intro k v hnd hl
    obtain ⟨k', v'⟩ := e
    simp only [noDotKeys, Bool.and_eq_true] at hnd
    simp only [lookupEntries] at hl
    split at hl
    · cases hl
      exact hnd.1.2
    · exact ih k v hnd.2 hl

theorem noDotKeys_assignEntries : ∀ (es : List (String × MaskObj)) k v,
    noDotKeys (.mk es) = true → '.' ∉ k.data → noDotKeys v = true →
    noDotKeys (.mk (assignEntries es k v)) = true := by
  intro es
  induction es with
  | nil =>
    intro k v _ hk hv
    simp [assignEntries, noDotKeys, hk, hv]
  | cons e rest ih =>
    intro k v hnd hk hv
    obtain ⟨k', v'⟩ := e
    simp only [noDotKeys, Bool.and_eq_true] at hnd
    simp only [assignEntries]
    split
    · simp only [noDotKeys, Bool.and_eq_true]
      refine ⟨⟨by simp [hk], hv⟩, hnd.2⟩
    · simp only [noDotKeys, Bool.and_eq_true]
      exact ⟨⟨hnd.1.1, hnd.1.2⟩, ih k v hnd.2 hk hv⟩

theorem noDotKeys_removeEntries : ∀ (es : List (String × MaskObj)) k,
    noDotKeys (.mk es) = true → noDotKeys (.mk (removeEntries es k)) = true := by
  intro es
  induction es with
  | nil => intro k h; exact h
  | cons e rest ih =>
    intro k hnd
    obtain ⟨k', v'⟩ := e
    simp only [noDotKeys, Bool.and_eq_true] at hnd
    simp only [removeEntries]
    split
    · exact hnd.2
    · simp only [noDotKeys, Bool.and_eq_true]
      exact ⟨⟨hnd.1.1, hnd.1.2⟩, ih k hnd.2⟩

theorem noDotKeys_setAtSegs : ∀ (segs : List String) (m : MaskObj) (target : String)
    (val : MaskObj), noDotKeys m = true → (∀ s ∈ segs, '.' ∉ s.data) →
    '.' ∉ target.data → noDotKeys val = true →
    noDotKeys (setAtSegs m segs target val) = true := by
  intro segs
  induction segs with
  | nil =>
    intro m target val hm _ ht hv
    cases m with
    | mk es => exact noDotKeys_assignEntries es target val hm ht hv
  | cons k ks ih =>
    intro m target val hm hsegs ht hv
    cases m with
    | mk es =>
      have hkdot : '.' ∉ k.data := hsegs k (List.mem_cons_self k ks)
      cases hl : MaskObj.lookup (.mk es) k with
      | none => simp only [setAtSegs, hl]; exact hm
      | some child =>
        simp only [setAtSegs, hl, MaskObj.assign, MaskObj.entries]
        exact noDotKeys_assignEntries es k _ hm hkdot
          (ih child target val (noDotKeys_lookupEntries es k child hm hl)
            (fun s hs => hsegs s (List.mem_cons_of_mem k hs)) ht hv)

theorem noDotKeys_removeAtSegs : ∀ (segs : List String) (m : MaskObj) (target : String),
    noDotKeys m = true → (∀ s ∈ segs, '.' ∉ s.data) →
    noDotKeys (removeAtSegs m segs target) = true := by
  intro segs
  induction segs with
  | nil =>
    intro m target hm _
    cases m with
    | mk es => exact noDotKeys_removeEntries es target hm
  | cons k ks ih =>
    intro m target hm hsegs
    cases m with
    | mk es =>
      have hkdot : '.' ∉ k.data := hsegs k (List.mem_cons_self k ks)
      cases hl : MaskObj.lookup (.mk es) k with
      | none => simp only [removeAtSegs, hl]; exact hm
      | some child =>
        simp only [removeAtSegs, hl, MaskObj.assign, MaskObj.entries]
        exact noDotKeys_assignEntries es k _ hm hkdot
          (ih child target (noDotKeys_lookupEntries es k child hm hl)
            (fun s hs => hsegs s (List.mem_cons_of_mem k hs)))

theorem checkKeys_true_of_not_false (v : MaskObj) (h : ¬ checkKeys v = false) :
    checkKeys v = true := by
  cases hc : checkKeys v
  · exact absurd hc h
  · rfl

theorem set_ok_noDotKeys (m val : MaskObj) (p : String) (m' : MaskObj)
    (hm : noDotKeys m = true) (h : m.set val p = .ok m') : noDotKeys m' = true := by
  have htarget : '.' ∉ ((splitDots p).getLastD "").data :=
    splitDots_noDot p _ (getLastD_mem (splitDots p) "" (splitDots_ne_nil p))
  simp only [MaskObj.set] at h
  split at h
  · exact absurd h (by simp)
  · rename_i hck
    have hval : noDotKeys val = true := by
      rw [← checkKeys_eq_noDotKeys]
      exact checkKeys_true_of_not_false val hck
    split at h
    · cases h
      exact hval
    · split at h
      · cases h
        cases m with
        | mk es => exact noDotKeys_assignEntries es _ val hm htarget hval
      · split at h
        · exact absurd h (by simp)
        · cases h
          exact noDotKeys_setAtSegs _ m _ val hm
            (fun s hs => splitDots_noDot _ s hs) htarget hval

theorem unset_ok_noDotKeys (m : MaskObj) (p : String) (m' : MaskObj)
    (hm : noDotKeys m = true) (h : m.unset p = .ok m') : noDotKeys m' = true := by
  simp only [MaskObj.unset] at h
  split at h
  · cases h
    simp [noDotKeys]
  · split at h
    · cases h
      cases m with
      | mk es => exact noDotKeys_removeEntries es _ hm
    · split at h
      · exact absurd h (by simp)
      · cases h
        exact noDotKeys_removeAtSegs _ m _ hm (fun s hs => splitDots_noDot _ s hs)

theorem push_ok_noDotKeys (m : MaskObj) (pr : PushArg) (p : String) (m' : MaskObj)
    (hm : noDotKeys m = true) (h : m.push pr p = .ok m') : noDotKeys m' = true := by
  simp only [MaskObj.push] at h
  split at h
  · exact absurd h (by simp)
  · exact set_ok_noDotKeys m _ p m' hm h

theorem runOps_noDotKeys : ∀ (ops : List MaskOp) (m : MaskObj),
    noDotKeys m = true → noDotKeys (runOps m ops) = true := by
  intro ops
  induction ops with
  | nil => intro m h; exact h
  | cons op ops ih =>
    intro m h
    simp only [runOps]
    cases hop : applyOp m op with
    | error e => exact ih m h
    | ok m' =>
      refine ih m' ?_
      cases op with
      | setO v p => exact set_ok_noDotKeys m v p m' h hop
      | unsetO p => exact unset_ok_noDotKeys m p m' h hop
      | pushO pr p => exact push_ok_noDotKeys m pr p m' h hop

/-! ### Serialization lemmas -/

theorem append_ne_empty_left (a b : String) (h : a ≠ "") : a ++ b ≠ "" := by
  intro hEq
  have hd := congrArg String.data hEq
  rw [String.data_append] at hd
  have hnil : ("" : String).data = [] := rfl
  rw [hnil] at hd
  have := List.append_eq_nil.1 hd |>.1
  exact h (by cases a; simp_all)

theorem leafPathsSpec_ne_nil : ∀ m : MaskObj, ∀ p ∈ leafPathsSpec m, p ≠ [] := by
  apply MaskObj.induct (P := fun m => ∀ p ∈ leafPathsSpec m, p ≠ [])
  · intro p hp
    simp [leafPathsSpec] at hp
  · intro k v rest ihv ihr p hp
    cases v with
    | mk es =>
      cases es with
      | nil =>
        simp only [leafPathsSpec, List.mem_append, List.mem_singleton] at hp
        rcases hp with hp | hp
        · simp [hp]
        · exact ihr p hp
      | cons e es' =>
        simp only [leafPathsSpec, List.mem_append, List.mem_map] at hp
        rcases hp with ⟨q, _, hq⟩ | hp
        · simp [← hq]
        · exact ihr p hp

/-- The heart of C1: the code's accumulating serialization walk equals the
spec's "dot-joined root-to-leaf paths", prefixed by the current path — as
long as no key is the empty string (an empty root key is itself a falsy
`current`, which the code then drops from deeper paths). -/
theorem leafList_eq_spec : ∀ m : MaskObj, noEmptyKeys m = true → ∀ cur : String,
    leafList m cur = (leafPathsSpec m).map
      (fun p => if cur = "" then joinDots p else cur ++ "." ++ joinDots p) := by
  apply MaskObj.induct
    (P := fun m => noEmptyKeys m = true → ∀ cur : String,
      leafList m cur = (leafPathsSpec m).map
        (fun p => if cur = "" then joinDots p else cur ++ "." ++ joinDots p))
  · intro _ cur
    simp [leafList, leafPathsSpec]
  · intro k v rest ihv ihr hne cur
    simp only [noEmptyKeys, Bool.and_eq_true] at hne
    have hk : k ≠ "" := by
      have := hne.1.1
      simp_all
    have hrest := ihr hne.2 cur
    cases v with
    | mk es =>
      cases es with
      | nil =>
        simp only [leafList, leafPathsSpec, List.map_append, hrest, List.map_cons,
          List.map_nil, joinDots, List.singleton_append, List.nil_append]
      | cons e es' =>
        have hv := ihv hne.1.2
        simp only [leafList, leafPathsSpec, List.map_append, hrest]
        congr 1
        rw [hv, List.map_map]
        apply List.map_congr_left
        intro q hq
        have hqne : q ≠ [] := leafPathsSpec_ne_nil _ q hq
        have hjoin : joinDots (k :: q) = k ++ "." ++ joinDots q := by
          cases q with
          | nil => exact absurd rfl hqne
          | cons x xs => rfl
        by_cases hcur : cur = ""
        · subst hcur
          simp [if_neg hk, hjoin]
        · have hne2 : cur ++ "." ++ k ≠ "" :=
            append_ne_empty_left _ _ (append_ne_empty_left _ _ hcur)
          have hne2' : cur ++ ("." ++ k) ≠ "" := by
            rw [← String.append_assoc]
            exact hne2
          simp only [Function.comp_apply, if_neg hcur, if_neg hne2, if_neg hne2', hjoin,
            String.append_assoc]

/-- C1's equation at the top level (`cur = ""`). -/
theorem toStr_spec (m : MaskObj) (h : noEmptyKeys m = true) :
    m.toStr = "mask[" ++ joinCommas ((leafPathsSpec m).map joinDots) ++ "]" := by
  have hl := leafList_eq_spec m h ""
  have hsimp : (fun p => if ("" : String) = "" then joinDots p else "" ++ "." ++ joinDots p)
      = joinDots := by
    funext p
    simp
  rw [hsimp] at hl
  simp only [MaskObj.toStr, objToStr, hl]

/-! ### Path-resolution lemmas -/

theorem getRefSegs_error_of_lookupPath_none :
    ∀ (segs : List String) (m root : MaskObj) (fp : String),
      lookupPath m segs = none →
      ∃ k, getRefSegs root fp m segs = .error (.pathNotFound k fp root.toStr) := by
  intro segs
  induction segs with
  | nil => intro m root fp h; simp [lookupPath] at h
  | cons k ks ih =>
    intro m root fp h
    simp only [lookupPath] at h
    cases hl : m.lookup k with
    | none =>
      refine ⟨k, ?_⟩
      simp only [getRefSegs, hl]
    | some child =>
      rw [hl] at h
      obtain ⟨k', hk'⟩ := ih child root fp h
      refine ⟨k', ?_⟩
      simp only [getRefSegs, hl, hk']

theorem getRefSegs_error_shape :
    ∀ (segs : List String) (m root : MaskObj) (fp : String) (e : MaskError),
      getRefSegs root fp m segs = .error e →
      ∃ k, e = .pathNotFound k fp root.toStr := by
  intro segs
  induction segs with
  | nil => intro m root fp e h; simp [getRefSegs] at h
  | cons k ks ih =>
    intro m root fp e h
    simp only [getRefSegs] at h
    cases hl : m.lookup k with
    | none =>
      rw [hl] at h
      cases h
      exact ⟨k, rfl⟩
    | some child =>
      rw [hl] at h
      exact ih child root fp e h

/-- `set` never signals the InvalidArgument condition (only `push` does). -/
theorem set_ne_invalidArgument (m v : MaskObj) (p : String) :
    m.set v p ≠ .error .invalidArgument := by
  simp only [MaskObj.set]
  split
  · simp
  · split
    · simp
    · split
      · simp
      · split
        · rename_i e hgr
          obtain ⟨k, hk⟩ := getRefSegs_error_shape _ _ _ _ _ hgr
          simp [hk]
        · simp

/-! ### Key-membership lemmas (for `push` with an array of names) -/

theorem mem_keys_assignEntries_self : ∀ (es : List (String × MaskObj)) (k : String)
    (v : MaskObj), k ∈ (MaskObj.mk (assignEntries es k v)).keys := by
  intro es
  induction es with
  | nil => intro k v; simp [assignEntries, MaskObj.keys, MaskObj.entries]
  | cons e rest ih =>
    intro k v
    obtain ⟨k', v'⟩ := e
    simp only [assignEntries]
    split
    · simp [MaskObj.keys, MaskObj.entries]
    · simp only [MaskObj.keys, MaskObj.entries, List.map_cons, List.mem_cons]
      right
      simpa [MaskObj.keys, MaskObj.entries] using ih k v

theorem mem_keys_assignEntries_mono : ∀ (es : List (String × MaskObj)) (k s : String)
    (v : MaskObj), s ∈ (MaskObj.mk es).keys →
    s ∈ (MaskObj.mk (assignEntries es k v)).keys := by
  intro es
  induction es with
  | nil => intro k s v h; simp [MaskObj.keys, MaskObj.entries] at h
  | cons e rest ih =>
    intro k s v h
    obtain ⟨k', v'⟩ := e
    simp only [MaskObj.keys, MaskObj.entries, List.map_cons, List.mem_cons] at h
    simp only [assignEntries]
    split
    · rename_i heq
      simp only [MaskObj.keys, MaskObj.entries, List.map_cons, List.mem_cons]
      rcases h with h | h
      · left
        rw [h, heq]
      · right
        exact h
    · simp only [MaskObj.keys, MaskObj.entries, List.map_cons, List.mem_cons]
      rcases h with h | h
      · left
        exact h
      · right
        simpa [MaskObj.keys, MaskObj.entries] using ih k s v
          (by simpa [MaskObj.keys, MaskObj.entries] using h)

theorem mem_keys_foldl_assign : ∀ (l : List String) (acc : MaskObj) (s : String),
    (s ∈ acc.keys ∨ s ∈ l) →
    s ∈ (l.foldl (fun a t => a.assign t (.mk [])) acc).keys := by
  intro l
  induction l with
  | nil =>
    intro acc s h
    rcases h with h | h
    · exact h
    · simp at h
  | cons x xs ih =>
    intro acc s h
    simp only [List.foldl_cons]
    rcases h with h | h
    · refine ih _ s (Or.inl ?_)
      cases acc with
      | mk es => exact mem_keys_assignEntries_mono es x s _ h
    · rcases List.mem_cons.1 h with h | h
      · subst h
        refine ih _ s (Or.inl ?_)
        cases acc with
        | mk es => exact mem_keys_assignEntries_self es s _
      · exact ih _ s (Or.inr h)

theorem hasDotDeep_of_mem_keys : ∀ (es : List (String × MaskObj)) (k : String),
    k ∈ (MaskObj.mk es).keys → '.' ∈ k.data → hasDotDeep (.mk es) = true := by
  intro es
  induction es with
  | nil => intro k h; simp [MaskObj.keys, MaskObj.entries] at h
  | cons e rest ih =>
    intro k h hd
    obtain ⟨k', v'⟩ := e
    simp only [MaskObj.keys, MaskObj.entries, List.map_cons, List.mem_cons] at h
    simp only [hasDotDeep, Bool.or_eq_true]
    rcases h with h | h
    · left
      subst h
      simp [hd]
    · right
      exact ih k (by simpa [MaskObj.keys, MaskObj.entries] using h) hd

theorem hasDotDeep_buildTemp_arr (l : List String) (s : String) (hs : s ∈ l)
    (hd : '.' ∈ s.data) : hasDotDeep (buildTemp (.arr l)) = true := by
  have hmem : s ∈ (buildTemp (.arr l)).keys :=
    mem_keys_foldl_assign l (.mk []) s (Or.inr hs)
  cases hb : buildTemp (.arr l) with
  | mk es =>
    rw [hb] at hmem
    exact hasDotDeep_of_mem_keys es s hmem hd

/-! ### Small evaluation lemmas -/

theorem checkKeys_singleton_leaf (k : String) (h : '.' ∉ k.data) :
    checkKeys (.mk [(k, .mk [])]) = true := by
  simp [checkKeys, MaskObj.entries, h]

theorem checkKeys_nested_pair (a b : String) (ha : '.' ∉ a.data) (hb : '.' ∉ b.data) :
    checkKeys (.mk [(a, .mk [(b, .mk [])])]) = true := by
  simp [checkKeys, MaskObj.entries, ha, hb]

theorem set_syntaxViolation (m v : MaskObj) (p : String) (h : hasDotDeep v = true) :
    m.set v p = .error .syntaxViolation := by
  have hck : checkKeys v = false := checkKeys_false_of_hasDotDeep v h
  simp [MaskObj.set, hck]

/-! ### The claims -/

/-- C1 (corrected): serialization is `mask[<comma-joined dot-joined leaf paths>]`
for every tree **with no empty-string key**; the empty tree gives `mask[]`;
and a two-level mask built by two `push` calls equals the one built by a
single `set`, so its serialization is identical.  (Without the no-empty-key
restriction the code drops the empty root key from deeper paths: see the
counterexample.) -/
theorem C1_serialization :
    (∀ m : MaskObj, noEmptyKeys m = true →
      m.toStr = "mask[" ++ joinCommas ((leafPathsSpec m).map joinDots) ++ "]") ∧
    MaskObj.empty.toStr = "mask[]" ∧
    (∀ a b : String, a ≠ "" → b ≠ "" → '.' ∉ a.data → '.' ∉ b.data →
      MaskObj.empty.push (.str a) "" = .ok (.mk [(a, .mk [])]) ∧
      (MaskObj.mk [(a, .mk [])]).push (.str b) a = .ok (.mk [(a, .mk [(b, .mk [])])]) ∧
      MaskObj.empty.set (.mk [(a, .mk [(b, .mk [])])]) ""
        = .ok (.mk [(a, .mk [(b, .mk [])])])) := by
  refine ⟨toStr_spec, ?_, ?_⟩
  · simp [MaskObj.toStr, objToStr, MaskObj.empty, leafList, joinCommas]
  · intro a b ha hb hda hdb
    refine ⟨?_, ?_, ?_⟩
    · have hck := checkKeys_singleton_leaf a hda
      simp [MaskObj.push, pushFalsy, ha, buildTemp, MaskObj.set, hck]
    · have hck := checkKeys_singleton_leaf b hdb
      have hsplit : splitDots a = [a] := splitDots_of_noDot a hda
      simp [MaskObj.push, pushFalsy, hb, buildTemp, MaskObj.set, hck, hsplit, ha,
        joinDots, MaskObj.assign, MaskObj.entries, assignEntries]
    · have hck := checkKeys_nested_pair a b hda hdb
      simp [MaskObj.set, hck]

/-- C1 counterexample: on the tree `{'': {'a': {}}}` (constructible via
`set`, since `''` contains no period) the serialization is `mask[a]`, while
the comma-joined dot-joined root-to-leaf paths give `mask[.a]`: the code
treats the empty-string prefix as falsy and restarts the path at `a`. -/
theorem C1_serialization_counterexample :
    (MaskObj.mk [("", .mk [("a", .mk [])])]).toStr = "mask[a]" ∧
    ("mask[" ++ joinCommas ((leafPathsSpec
        (MaskObj.mk [("", .mk [("a", .mk [])])])).map joinDots) ++ "]") = "mask[.a]" ∧
    ("mask[a]" : String) ≠ "mask[.a]" ∧
    MaskObj.empty.set (.mk [("", .mk [("a", .mk [])])]) ""
      = .ok (.mk [("", .mk [("a", .mk [])])]) := by
  refine ⟨?_, ?_, by decide, ?_⟩
  · simp [MaskObj.toStr, objToStr, leafList, joinCommas]
  · simp [leafPathsSpec, joinDots, joinCommas]
  · have hck : checkKeys (.mk [("", .mk [("a", .mk [])])]) = true :=
      checkKeys_nested_pair "" "a" (by decide) (by decide)
    simp [MaskObj.set, hck]

/-- C1 witness: the amended theorem applied at a concrete tree and at
concrete keys `a`, `b`. -/
theorem C1_serialization_witness :
    (MaskObj.mk [("x", .mk [])]).toStr
      = "mask[" ++ joinCommas ((leafPathsSpec (MaskObj.mk [("x", .mk [])])).map joinDots)
        ++ "]" ∧
    (MaskObj.empty.push (.str "a") "" = .ok (.mk [("a", .mk [])]) ∧
     (MaskObj.mk [("a", .mk [])]).push (.str "b") "a"
       = .ok (.mk [("a", .mk [("b", .mk [])])]) ∧
     MaskObj.empty.set (.mk [("a", .mk [("b", .mk [])])]) ""
       = .ok (.mk [("a", .mk [("b", .mk [])])])) :=
  ⟨C1_serialization.1 _ (by simp [noEmptyKeys]),
   C1_serialization.2.2 "a" "b" (by decide) (by decide) (by decide) (by decide)⟩

/-- C2 (confirmed): assigning a value with a dotted key at any nesting depth
— by `set` directly, or via `push` with a dotted property name or an array
containing one — fails with the SyntaxViolation condition; the validation
precedes every mutation in the source, so the tree is left unchanged (an
`.error` result carries no new tree). -/
theorem C2_syntax_violation :
    (∀ (m v : MaskObj) (p : String), hasDotDeep v = true →
      m.set v p = .error .syntaxViolation) ∧
    (∀ (m : MaskObj) (s p : String), '.' ∈ s.data →
      m.push (.str s) p = .error .syntaxViolation) ∧
    (∀ (m : MaskObj) (l : List String) (s : String) (p : String), s ∈ l →
      '.' ∈ s.data → m.push (.arr l) p = .error .syntaxViolation) := by
  refine ⟨set_syntaxViolation, ?_, ?_⟩
  · intro m s p hd
    have hs : s ≠ "" := by
      intro h
      subst h
      have : ("" : String).data = [] := rfl
      rw [this] at hd
      exact List.not_mem_nil _ hd
    have hdd : hasDotDeep (buildTemp (.str s)) = true := by
      simp [buildTemp, hasDotDeep, hd]
    simp only [MaskObj.push, pushFalsy]
    rw [if_neg (by simp [hs])]
    exact set_syntaxViolation m _ p hdd
  · intro m l s p hs hd
    have hdd := hasDotDeep_buildTemp_arr l s hs hd
    simp only [MaskObj.push, pushFalsy]
    rw [if_neg (by simp)]
    exact set_syntaxViolation m _ p hdd

/-- C2 witness: the three failure modes at concrete inputs. -/
theorem C2_syntax_violation_witness :
    MaskObj.empty.set (.mk [("a", .mk [("b.c", .mk [])])]) ""
      = .error .syntaxViolation ∧
    MaskObj.empty.push (.str "a.b") "" = .error .syntaxViolation ∧
    (MaskObj.mk [("x", .mk [])]).push (.arr ["ok", "a.b"]) "x"
      = .error .syntaxViolation :=
  ⟨C2_syntax_violation.1 _ _ "" (by simp [hasDotDeep, MaskObj.entries]),
   C2_syntax_violation.2.1 _ "a.b" "" (by decide),
   C2_syntax_violation.2.2 _ ["ok", "a.b"] "a.b" "x" (by simp) (by decide)⟩

/-- C3 (confirmed): starting from the empty tree, any sequence of `set`,
`unset` and `push` calls (failed calls leaving the tree untouched) maintains
the invariant that no key anywhere contains a `'.'`; and `_checkKeys`
coincides with the deep no-dotted-key predicate, i.e. it checks recursively
into every non-empty nested object, not just top-level keys. -/
theorem C3_no_dot_invariant :
    (∀ ops : List MaskOp, noDotKeys (runOps MaskObj.empty ops) = true) ∧
    (∀ v : MaskObj, checkKeys v = noDotKeys v) :=
  ⟨fun ops => runOps_noDotKeys ops MaskObj.empty (by simp [MaskObj.empty, noDotKeys]),
   checkKeys_eq_noDotKeys⟩

/-- C4 (confirmed): `set` with a valid value and a multi-segment path (two or
more nonempty dot-separated segments) whose parent segments do not all
resolve fails with the PathNotFound condition, whose payload identifies the
missing segment, the path handed to resolution, and the current serialized
mask; the error precedes every mutation in the source, so the tree is left
unchanged. -/
theorem C4_path_not_found :
    ∀ (m v : MaskObj) (p : String), checkKeys v = true →
      2 ≤ (splitDots p).length → (∀ s ∈ splitDots p, s ≠ "") →
      lookupPath m (splitDots p).dropLast = none →
      ∃ k, m.set v p
        = .error (.pathNotFound k (joinDots (splitDots p).dropLast) m.toStr) := by
  intro m v p hck hlen hne hlp
  have hp : p ≠ "" := by
    intro h
    subst h
    have : splitDots "" = [""] := rfl
    rw [this] at hlen
    simp at hlen
  have hdl_ne : (splitDots p).dropLast ≠ [] := by
    intro h
    have hl := List.length_dropLast (splitDots p)
    rw [h] at hl
    simp at hl
    omega
  have hsub : ∀ s ∈ (splitDots p).dropLast, s ≠ "" :=
    fun s hs => hne s ((List.dropLast_sublist _).subset hs)
  have hnd : ∀ s ∈ (splitDots p).dropLast, '.' ∉ s.data :=
    fun s hs => splitDots_noDot p s ((List.dropLast_sublist _).subset hs)
  have hshort : joinDots (splitDots p).dropLast ≠ "" := joinDots_ne_empty _ hdl_ne hsub
  have hround : splitDots (joinDots (splitDots p).dropLast) = (splitDots p).dropLast :=
    splitDots_joinDots _ hdl_ne hnd
  obtain ⟨k, hk⟩ := getRefSegs_error_of_lookupPath_none ((splitDots p).dropLast) m m
    (joinDots (splitDots p).dropLast) hlp
  refine ⟨k, ?_⟩
  simp only [MaskObj.set, hck]
  rw [if_neg (by simp), if_neg hp, if_neg hshort, hround, hk]

/-- C4 witness: a two-segment path over the empty tree. -/
theorem C4_path_not_found_witness :
    ∃ k, MaskObj.empty.set (.mk [("f", .mk [])]) "a.b"
      = .error (.pathNotFound k (joinDots (splitDots "a.b").dropLast)
          MaskObj.empty.toStr) :=
  C4_path_not_found MaskObj.empty _ "a.b"
    (checkKeys_singleton_leaf "f" (by decide))
    (by decide) (by decide) rfl

/-- C5 counterexample: the claim says `push` fails with InvalidArgument
whenever the property argument is empty, but an empty **array** is truthy in
JS, passes the guard, and simply performs `set` of an empty subtree: here it
succeeds and replaces the whole tree. -/
theorem C5_push_counterexample :
    (MaskObj.mk [("a", .mk [])]).push (.arr []) "" = .ok (.mk []) := by
  have hck : checkKeys (MaskObj.mk []) = true := by simp [checkKeys]
  simp [MaskObj.push, pushFalsy, buildTemp, MaskObj.set, hck]

/-- C5 (corrected): `push` fails with the InvalidArgument condition exactly
when the property argument is the **empty string** (an empty array is
accepted); in every non-failing case it performs `set` at the path with the
subtree whose direct children are leaves named after the given property
name(s) — hence replacing, not merging into, the subtree at the path's final
key. -/
theorem C5_push_invalid_argument :
    (∀ (m : MaskObj) (pr : PushArg) (p : String),
      m.push pr p = .error .invalidArgument ↔ pr = .str "") ∧
    (∀ (m : MaskObj) (pr : PushArg) (p : String), pr ≠ .str "" →
      m.push pr p = m.set (buildTemp pr) p) := by
  constructor
  · intro m pr p
    cases hf : pushFalsy pr with
    | true =>
      cases pr with
      | str s =>
        have hs : s = "" := by simpa [pushFalsy] using hf
        subst hs
        simp [MaskObj.push, pushFalsy]
      | arr l => simp [pushFalsy] at hf
    | false =>
      have hpush : m.push pr p = m.set (buildTemp pr) p := by
        simp [MaskObj.push, hf]
      rw [hpush]
      constructor
      · intro h
        exact absurd h (set_ne_invalidArgument m _ p)
      · intro h
        subst h
        simp [pushFalsy] at hf
  · intro m pr p hne
    have hf : pushFalsy pr = false := by
      cases pr with
      | str s =>
        have hs : s ≠ "" := fun h => hne (by rw [h])
        simp [pushFalsy, hs]
      | arr l => rfl
    simp [MaskObj.push, hf]

/-- C5 witness: the amended theorem applied at concrete arguments. -/
theorem C5_push_invalid_argument_witness :
    (MaskObj.empty.push (.str "") "x" = .error .invalidArgument
      ↔ (PushArg.str "" : PushArg) = .str "") ∧
    MaskObj.empty.push (.arr ["a", "b"]) ""
      = MaskObj.empty.set (buildTemp (.arr ["a", "b"])) "" :=
  ⟨C5_push_invalid_argument.1 MaskObj.empty (.str "") "x",
   C5_push_invalid_argument.2 MaskObj.empty (.arr ["a", "b"]) "" (by simp)⟩

/-- C10 (confirmed): with a single-segment path (no `'.'`), `set` and `unset`
never signal PathNotFound — the parent path is empty, so resolution is
bypassed: `set v k` assigns `v` under root key `k` (creating it if absent)
and `unset k` succeeds whether or not `k` exists. -/
theorem C10_single_segment :
    (∀ (m v : MaskObj) (p : String), '.' ∉ p.data →
      isPathNotFound (m.set v p) = false) ∧
    (∀ (m : MaskObj) (p : String), '.' ∉ p.data →
      m.unset p = .ok (if p = "" then .mk [] else m.remove p)) ∧
    (∀ (m v : MaskObj) (p : String), '.' ∉ p.data → p ≠ "" → checkKeys v = true →
      m.set v p = .ok (m.assign p v)) := by
  refine ⟨?_, ?_, ?_⟩
  · intro m v p hnd
    cases hck : checkKeys v with
    | false => simp [MaskObj.set, hck, isPathNotFound]
    | true =>
      by_cases hp : p = ""
      · subst hp
        simp [MaskObj.set, hck, isPathNotFound]
      · have hsplit : splitDots p = [p] := splitDots_of_noDot p hnd
        simp [MaskObj.set, hck, hsplit, hp, joinDots, isPathNotFound]
  · intro m p hnd
    by_cases hp : p = ""
    · subst hp
      simp [MaskObj.unset]
    · have hsplit : splitDots p = [p] := splitDots_of_noDot p hnd
      simp [MaskObj.unset, hsplit, hp, joinDots]
  · intro m v p hnd hp hck
    have hsplit : splitDots p = [p] := splitDots_of_noDot p hnd
    simp [MaskObj.set, hck, hsplit, hp, joinDots]

/-- C10 witness: a fresh root key (`set`) and an existing key (`unset`) at
concrete inputs. -/
theorem C10_single_segment_witness :
    isPathNotFound ((MaskObj.mk [("a", .mk [])]).set (.mk [("b", .mk [])]) "x")
      = false ∧
    (MaskObj.mk [("a", .mk [])]).unset "a"
      = .ok (if ("a" : String) = "" then .mk []
             else (MaskObj.mk [("a", .mk [])]).remove "a") ∧
    (MaskObj.mk [("a", .mk [])]).set (.mk [("b", .mk [])]) "x"
      = .ok ((MaskObj.mk [("a", .mk [])]).assign "x" (.mk [("b", .mk [])])) :=
  ⟨C10_single_segment.1 _ _ "x" (by decide),
   C10_single_segment.2.1 _ "a" (by decide),
   C10_single_segment.2.2 _ _ "x" (by decide) (by decide)
     (checkKeys_singleton_leaf "b" (by decide))⟩

/-! ### Request-builder lemmas and claims -/

theorem urlQuery_ok (b : SLAPIRequest) (hs : b.config.service ≠ "")
    (hf : b.config.func ≠ "") :
    urlQuery b = .ok (urlRaw b ++ "?" ++ serializeParams (urlQueryParams b)) := by
  simp [urlQuery, strTruthy, hs, hf]

/-- C6 (confirmed): with a truthy service and function, an empty-serializing
mask and a `{}`-serializing filter, limit 25 and offset 0, `urlQuery` is
`E ++ S ++ "/" ++ F ++ "?resultLimit=0%2C25"`; and in general the query
parameters are `objectMask` (only for a non-empty mask serialization),
`objectFilter` (only when the filter does not serialize to `{}`), and always
`resultLimit=<offset>,<limit>`, in that order. -/
theorem C6_url_query :
    (∀ b : SLAPIRequest, b.config.service ≠ "" → b.config.func ≠ "" →
      b.mask.toStr = "mask[]" → jsonStringify b.options.filter = "\x7b\x7d" →
      b.options.limit = 25 → b.options.offset = 0 →
      urlQuery b = .ok (b.config.endpoint ++ b.config.service ++ "/"
        ++ b.config.func ++ "?resultLimit=0%2C25")) ∧
    (∀ b : SLAPIRequest, b.config.service ≠ "" → b.config.func ≠ "" →
      urlQuery b = .ok (urlRaw b ++ "?" ++ serializeParams (
        (if b.mask.toStr ≠ "mask[]" then [("objectMask", b.mask.toStr)] else []) ++
        (if jsonStringify b.options.filter ≠ "\x7b\x7d" then
          [("objectFilter", jsonStringify b.options.filter)] else []) ++
        [("resultLimit",
          toString b.options.offset ++ "," ++ toString b.options.limit)]))) := by
  constructor
  · intro b hs hf hm hfil hl ho
    have h0 : toString (0 : Nat) ++ "," ++ toString (25 : Nat) = "0,25" := by decide
    have h1 : urlQueryParams b = [("resultLimit", "0,25")] := by
      simp [urlQueryParams, hm, hfil, hl, ho, h0]
    have h2 : serializeParams [("resultLimit", "0,25")] = "resultLimit=0%2C25" := by
      decide
    have h3 : ∀ A : String, A ++ "?" ++ "resultLimit=0%2C25"
        = A ++ "?resultLimit=0%2C25" := by
      intro A
      rw [String.append_assoc]
      exact congrArg (fun x => A ++ x) (by decide)
    rw [urlQuery_ok b hs hf, h1, h2, h3]
    rfl
  · intro b hs hf
    rw [urlQuery_ok b hs hf]
    rfl

/-- C6 witness: the default-constructed builder (empty mask, empty filter,
limit 25, offset 0) at concrete service and function names. -/
theorem C6_url_query_witness :
    urlQuery (mkRequest "SoftLayer_Hardware_Server" "getObject" MaskObj.empty
        (.obj []) none none)
      = .ok ("https://api.softlayer.com/rest/v3.1/" ++ "SoftLayer_Hardware_Server"
          ++ "/" ++ "getObject" ++ "?resultLimit=0%2C25") :=
  C6_url_query.1 _ (by decide) (by decide)
    (by simp [mkRequest, MaskObj.empty, MaskObj.toStr, objToStr, leafList, joinCommas])
    (by simp [mkRequest, jsonStringify, jsonStringifyFields])
    rfl rfl

/-- C7 (confirmed): `exec` with an unset username or password produces the
`'Invalid API token'` error as a **returned** value (`errValue`, not a thrown
error), leaves the builder exactly as it was (so the stored response and the
start/end timestamps are untouched) and leaves the world exactly as it was
(so no HTTP call is issued and no time passes). -/
theorem C7_exec_auth_unavailable :
    ∀ (b : SLAPIRequest) (w : World),
      b.config.username = none ∨ b.config.password = none →
      exec b w = (b, w, .errValue "Invalid API token") := by
  intro b w h
  have hguard : (!optTruthy b.config.username
      || !optTruthy b.config.password) = true := by
    rcases h with h | h <;> simp [h, optTruthy]
  simp [exec, hguard]

/-- C7 witness: a builder with a password but no username, against a concrete
world. -/
theorem C7_exec_auth_unavailable_witness :
    exec (mkRequest "S" "F" MaskObj.empty (.obj []) none (some (.str "pw")))
        { now := 0, responses := fun _ => { totalItemsHeader := none, body := .null },
          calls := [] }
      = (mkRequest "S" "F" MaskObj.empty (.obj []) none (some (.str "pw")),
         { now := 0, responses := fun _ => { totalItemsHeader := none, body := .null },
           calls := [] },
         .errValue "Invalid API token") :=
  C7_exec_auth_unavailable _ _ (Or.inl rfl)

/-- The one-step behaviour of a credentialed `exec` against a configured
builder: it issues exactly one fetch, stores the response and the two
timestamps, sets the Authorization header, and returns the parsed body of
the next oracle response. -/
theorem exec_spec (b : SLAPIRequest) (w : World)
    (hu : optTruthy b.config.username = true)
    (hp : optTruthy b.config.password = true)
    (hs : b.config.service ≠ "") (hf : b.config.func ≠ "") :
    exec b w
      = ({ b with
            results := { res := some (w.responses w.calls.length),
                         start := some w.now, stop := some (w.now + 1) },
            options := { b.options with
              headers := headerSet b.options.headers "Authorization"
                ("Basic " ++ btoa (optDisplay b.config.username ++ ":"
                  ++ optDisplay b.config.password)) } },
         { w with
           now := w.now + 2,
           calls := w.calls ++ [execCallOf b
             (urlRaw b ++ "?" ++ serializeParams (urlQueryParams b))] },
         .json (w.responses w.calls.length).body) := by
  have hg : (!optTruthy b.config.username
      || !optTruthy b.config.password) = false := by
    rw [hu, hp]
    rfl
  have hq : urlQuery { b with results := { b.results with start := some w.now } }
      = .ok (urlRaw b ++ "?" ++ serializeParams (urlQueryParams b)) :=
    urlQuery_ok _ hs hf
  simp only [exec, hg, Bool.false_eq_true, if_false, hq, execCallOf]
  rfl

/-- Projections of `exec_spec` convenient for the pagination induction. -/
theorem exec_fields (b : SLAPIRequest) (w : World)
    (hu : optTruthy b.config.username = true)
    (hp : optTruthy b.config.password = true)
    (hs : b.config.service ≠ "") (hf : b.config.func ≠ "") :
    (exec b w).1.config = b.config ∧
    (exec b w).2.1.responses = w.responses ∧
    (exec b w).2.1.calls.length = w.calls.length + 1 ∧
    (exec b w).2.2 = .json (w.responses w.calls.length).body := by
  rw [exec_spec b w hu hp hs hf]
  refine ⟨rfl, rfl, ?_, rfl⟩
  simp

/-- The pagination loop: starting at page `i` with `rem` pages left
(`i + rem = pages + 1`), a credentialed, configured builder performs `rem`
iterations, each setting the page, calling `exec` (one fetch per call) and
pausing 300ms, and returns the flattened page bodies in order. -/
theorem getNumOfPagesLoop_spec :
    ∀ (rem i pages : Nat), i + rem = pages + 1 →
    ∀ (b : SLAPIRequest) (w : World) (acc : List PageItem) (evs : List PageEvent),
      optTruthy b.config.username = true → optTruthy b.config.password = true →
      b.config.service ≠ "" → b.config.func ≠ "" →
      ∃ b' w',
        getNumOfPagesLoop b w i pages acc evs
          = (b', w',
             evs ++ (List.range' i rem).flatMap
               (fun j => [.setPage j, .execCall, .pause 300]),
             .ok (flatten1 (acc ++ (List.range' w.calls.length rem).map
               (fun n => PageItem.json (w.responses n).body))))
        ∧ w'.calls.length = w.calls.length + rem
        ∧ w'.responses = w.responses := by
  intro rem
  induction rem with
  | zero =>
    intro i pages hip b w acc evs hu hp hs hf
    refine ⟨b, w, ?_, by simp, rfl⟩
    rw [getNumOfPagesLoop, dif_pos (by omega)]
    simp [List.range']
  | succ rem ih =>
    intro i pages hip b w acc evs hu hp hs hf
    have hile : ¬ pages < i := by omega
    have hfacts := exec_fields (page b i) w hu hp hs hf
    rcases hE : exec (page b i) w with ⟨b2, w2, out⟩
    rw [hE] at hfacts
    dsimp only at hfacts
    obtain ⟨hcfg, hresp, hlen, hout⟩ := hfacts
    have hu2 : optTruthy b2.config.username = true := by rw [hcfg]; exact hu
    have hp2 : optTruthy b2.config.password = true := by rw [hcfg]; exact hp
    have hs2 : b2.config.service ≠ "" := by rw [hcfg]; exact hs
    have hf2 : b2.config.func ≠ "" := by rw [hcfg]; exact hf
    obtain ⟨b', w', h1, h2, h3⟩ := ih (i + 1) pages (by omega) b2
      { w2 with now := w2.now + 300 }
      (acc ++ [PageItem.json (w.responses w.calls.length).body])
      (evs ++ [.setPage i, .execCall, .pause 300]) hu2 hp2 hs2 hf2
    refine ⟨b', w', ?_, ?_, ?_⟩
    · rw [getNumOfPagesLoop, dif_neg hile, hE, hout]
      dsimp only
      rw [h1]
      simp only [Prod.mk.injEq, true_and]
      constructor
      · rw [List.range'_succ]
        simp [List.append_assoc]
      · rw [List.range'_succ]
        simp only [hresp, hlen]
        simp [List.append_assoc]
    · rw [h2]
      simp only [hlen]
      omega
    · rw [h3, hresp]

/-- C8 (confirmed): `getNumOfPages(pages)` on a credentialed, configured
builder performs exactly `pages` `exec` calls, strictly in page order
`1..pages` (the page is set before each call, with a 300ms pause after each),
issues one fetch per page, and returns the one-level-flattened concatenation
of the per-page JSON bodies in that order. -/
theorem C8_get_num_of_pages :
    ∀ (b : SLAPIRequest) (w : World) (pages : Nat),
      optTruthy b.config.username = true → optTruthy b.config.password = true →
      b.config.service ≠ "" → b.config.func ≠ "" →
      ∃ b' w',
        getNumOfPages b w pages
          = (b', w',
             (List.range' 1 pages).flatMap
               (fun j => [.setPage j, .execCall, .pause 300]),
             .ok (flatten1 ((List.range' w.calls.length pages).map
               (fun n => PageItem.json (w.responses n).body))))
        ∧ w'.calls.length = w.calls.length + pages := by
  intro b w pages hu hp hs hf
  obtain ⟨b', w', h1, h2, _⟩ :=
    getNumOfPagesLoop_spec pages 1 pages (by omega) b w [] [] hu hp hs hf
  refine ⟨b', w', ?_, h2⟩
  simpa [getNumOfPages] using h1

/-- C8 witness: two pages against a concrete world whose every response body
is the one-element array `[1]`. -/
theorem C8_get_num_of_pages_witness :
    ∃ b' w',
      getNumOfPages
          (mkRequest "S" "F" MaskObj.empty (.obj [])
            (some (.str "u")) (some (.str "p")))
          { now := 0,
            responses := fun _ =>
              { totalItemsHeader := none, body := .arr [.num 1] },
            calls := [] } 2
        = (b', w',
           (List.range' 1 2).flatMap
             (fun j => [.setPage j, .execCall, .pause 300]),
           .ok (flatten1 ((List.range'
               ({ now := 0,
                  responses := fun _ =>
                    { totalItemsHeader := none, body := .arr [.num 1] },
                  calls := [] } : World).calls.length 2).map
             (fun n => PageItem.json
               (({ now := 0,
                   responses := fun _ =>
                     { totalItemsHeader := none, body := .arr [.num 1] },
                   calls := [] } : World).responses n).body))))
        ∧ w'.calls.length
          = ({ now := 0,
               responses := fun _ =>
                 { totalItemsHeader := none, body := .arr [.num 1] },
               calls := [] } : World).calls.length + 2 :=
  C8_get_num_of_pages _ _ 2 (by decide) (by decide) (by decide) (by decide)

/-- C9 (corrected): `employeeLogin` with all three arguments present fails by
surfacing the remote error — leaving this instance (hence its username and
password) unmodified, every throw preceding the credential assignments —
whenever the exchange's JSON response carries an error field **with a truthy
value**; and it fails with MissingCredentials when any argument is absent.
(A present but falsy `error` field — e.g. the empty string — is *not*
surfaced: see the counterexample.) -/
theorem C9_employee_login :
    (∀ (b : SLAPIRequest) (u p t : String) (w : World) (e : JsonVal),
      u ≠ "" → p ≠ "" → t ≠ "" →
      jsonField (w.responses w.calls.length).body "error" = some e →
      jsonTruthy e = true →
      (employeeLogin b (some u) (some p) (some t) w).2 = .error (.remote e)) ∧
    (∀ (b : SLAPIRequest) (u p t : Option String) (w : World),
      u = none ∨ p = none ∨ t = none →
      (employeeLogin b u p t w).2 = .error .missingCredentials) := by
  constructor
  · intro b u p t w e hu hp ht herr htruthy
    have hu' : optTruthy (some (JsonVal.str u)) = true := by
      simp [optTruthy, jsonTruthy, hu]
    have hp' : optTruthy (some (JsonVal.str p)) = true := by
      simp [optTruthy, jsonTruthy, hp]
    have hexec := exec_spec
      (bodySet (methodSet (mkRequest "SoftLayer_User_Employee"
          "getEncryptedSessionToken" MaskObj.empty (.obj [])
          (some (.str u)) (some (.str p)))
        "post") [("remoteToken", t)])
      w hu' hp'
      (show ("SoftLayer_User_Employee" : String) ≠ "" by decide)
      (show ("getEncryptedSessionToken" : String) ≠ "" by decide)
    simp only [employeeLogin, Option.getD_some]
    rw [if_neg (by simp [strFalsy, hu, hp, ht])]
    rw [hexec]
    dsimp only
    simp [herr, optTruthy, htruthy]
  · intro b u p t w h
    rcases h with h | h | h <;> subst h <;> simp [employeeLogin, strFalsy]

/-- C9 counterexample: a response that *does* carry an `error` field, with
the falsy value `""`, is not surfaced as RemoteError: the login succeeds and
overwrites this instance's username and password with the response's
`userId`/`hash`. -/
theorem C9_employee_login_counterexample :
    jsonField (.obj [("error", .str ""), ("userId", .str "nu"), ("hash", .str "nh")])
        "error" = some (.str "") ∧
    (employeeLogin (mkRequest "S" "F" MaskObj.empty (.obj []) none none)
        (some "u") (some "p") (some "t")
        { now := 0,
          responses := fun _ =>
            { totalItemsHeader := none,
              body := .obj [("error", .str ""), ("userId", .str "nu"),
                            ("hash", .str "nh")] },
          calls := [] }).2
      = .ok (passwordSet (usernameSet
          (mkRequest "S" "F" MaskObj.empty (.obj []) none none)
          (some (.str "nu"))) (some (.str "nh"))) := by
  refine ⟨rfl, ?_⟩
  have hexec := exec_spec
    (bodySet (methodSet (mkRequest "SoftLayer_User_Employee"
        "getEncryptedSessionToken" MaskObj.empty (.obj [])
        (some (.str "u")) (some (.str "p")))
      "post") [("remoteToken", "t")])
    { now := 0,
      responses := fun _ =>
        { totalItemsHeader := none,
          body := .obj [("error", .str ""), ("userId", .str "nu"),
                        ("hash", .str "nh")] },
      calls := [] }
    (by decide) (by decide) (by decide) (by decide)
  simp only [employeeLogin, Option.getD_some]
  rw [if_neg (by simp [strFalsy])]
  rw [hexec]
  dsimp only
  simp [optTruthy, jsonTruthy, jsonField, jsonFieldEntries]

/-- C9 witness: the amended theorem at a concrete world whose response
carries `error: "boom"`, and at an absent token. -/
theorem C9_employee_login_witness :
    (employeeLogin (mkRequest "S" "F" MaskObj.empty (.obj []) none none)
        (some "u") (some "p") (some "t")
        { now := 0,
          responses := fun _ =>
            { totalItemsHeader := none,
              body := .obj [("error", .str "boom")] },
          calls := [] }).2
      = .error (.remote (.str "boom")) ∧
    (employeeLogin (mkRequest "S" "F" MaskObj.empty (.obj []) none none)
        (some "u") (some "p") none
        { now := 0,
          responses := fun _ => { totalItemsHeader := none, body := .null },
          calls := [] }).2
      = .error .missingCredentials :=
  ⟨C9_employee_login.1 _ "u" "p" "t" _ (.str "boom")
      (by decide) (by decide) (by decide) rfl rfl,
   C9_employee_login.2 _ _ _ none _ (Or.inr (Or.inr rfl))⟩

end SLAPI
